import Mathlib

/-!
Verification of the touchHLE dynamic linker (`src/dyld.rs`) and the CPU
run-result protocol (`src/cpu.rs`).

The Rust code is shallowly embedded: guest memory is a word-addressed map
plus a bump allocator (matching how `Mem` is used by the linker, which only
ever reads and writes aligned 32-bit words), parsed Mach-O binaries are
records mirroring the fields the linker consumes, fatal `panic!`/`assert!`
paths become `Except.error`, and the opaque host-function type is a type
parameter `H`. Cache invalidations performed via `Cpu::invalidate_cache_range`
are recorded as `(base, size)` events.
-/

namespace TouchHLE

/-! ## Guest memory (`Mem`): word reads/writes and allocation -/

structure Mem where
  contents : Nat → Nat
  next_alloc : Nat

def Mem.read (m : Mem) (a : Nat) : Nat := m.contents a

def Mem.write (m : Mem) (a v : Nat) : Mem :=
  { m with contents := fun x => if x = a then v else m.contents x }

def Mem.alloc (m : Mem) (size : Nat) : Nat × Mem :=
  (m.next_alloc, { m with next_alloc := m.next_alloc + size })

/-! ## Parsed Mach-O binaries (read-only inputs to the linker) -/

structure DyldIndirectSymbolInfo where
  entry_size : Nat
  indirect_undef_symbols : List (Option String)
deriving DecidableEq

structure MachOSection where
  addr : Nat
  size : Nat
  dyld_indirect_symbol_info : Option DyldIndirectSymbolInfo
deriving DecidableEq

structure MachO where
  name : String
  sections : List (String × MachOSection)
  external_relocations : List (Nat × String)
  exported_symbols : List (String × Nat)
deriving DecidableEq

def MachO.get_section (bin : MachO) (sname : String) : Option MachOSection :=
  (bin.sections.find? (fun p => p.1 == sname)).map Prod.snd

def lookup_export (bin : MachO) (symbol : String) : Option Nat :=
  (bin.exported_symbols.find? (fun p => p.1 == symbol)).map Prod.snd

/-- `search_lists` from `dyld.rs`: scan the declaration lists in order and
return the first entry whose mangled name matches. -/
def search_lists {H : Type} (lists : List (List (String × H))) (symbol : String) :
    Option H :=
  ((lists.flatten).find? (fun p => p.1 == symbol)).map Prod.snd

/-! ## Instruction encodings and reserved SVC codes -/

def encode_a32_svc (imm : Nat) : Nat := imm ||| 0xef000000

/-- Condition asserted by `encode_a32_svc` in the source: the immediate must
not collide with the opcode bits. -/
def svc_imm_ok (imm : Nat) : Bool := imm &&& 0xff000000 == 0

def encode_a32_ret : Nat := 0xe12fff1e

def encode_a32_trap : Nat := 0xe7ffdefe

def SVC_LAZY_LINK : Nat := 0
def SVC_RETURN_TO_HOST : Nat := 1
def SVC_LINKED_FUNCTIONS_BASE : Nat := SVC_RETURN_TO_HOST + 1

def SYMBOL_STUB_INSTRUCTIONS : List Nat := [0xe59fc000, 0xe59cf000]
def PIC_SYMBOL_STUB_INSTRUCTIONS : List Nat := [0xe59fc004, 0xe08fc00c, 0xe59cf000]

/-- Template for a given stub entry size, as selected by the `match` in
`setup_lazy_linking` and `do_lazy_link` (12 → plain, 16 → PIC, else
`unreachable!`). -/
def stub_template (entry_size : Nat) : Option (List Nat) :=
  if entry_size == 12 then some SYMBOL_STUB_INSTRUCTIONS
  else if entry_size == 16 then some PIC_SYMBOL_STUB_INSTRUCTIONS
  else none

/-! ## Lazy-linking stub installation (`Dyld::setup_lazy_linking`) -/

/-- Check one stub's words against the expected template (the per-word
`assert!` loop in `setup_lazy_linking`). -/
def stub_matches (mem : Mem) (ptr : Nat) (tmpl : List Nat) : Bool :=
  (List.range tmpl.length).all (fun j => mem.read (ptr + 4 * j) == tmpl.getD j 0)

/-- Install the lazy-link trap over one stub: SVC at word 0, return at word 1,
and for the 16-byte PIC layout a trap at word 2. -/
def patch_stub (mem : Mem) (ptr : Nat) (entry_size : Nat) : Mem :=
  let m2 := (mem.write ptr (encode_a32_svc SVC_LAZY_LINK)).write (ptr + 4) encode_a32_ret
  if entry_size == 16 then m2.write (ptr + 8) encode_a32_trap else m2

/-- The `for i in 0..stub_count` loop of `setup_lazy_linking`, over the list
of stub indices: verify each stub against the template, then patch it. -/
def setup_stubs_loop (base entry_size : Nat) (tmpl : List Nat) :
    List Nat → Mem → Except String Mem
  | [], mem => .ok mem
  | i :: rest, mem =>
    let ptr := base + i * entry_size
    if stub_matches mem ptr tmpl then
      setup_stubs_loop base entry_size tmpl rest (patch_stub mem ptr entry_size)
    else
      .error "assertion failed: stub instructions match expected template"

/-- `__symbol_stub4` or else `__picsymbolstub4`, as in both
`setup_lazy_linking` and `do_lazy_link`. -/
def stubs_section (bin : MachO) : Option MachOSection :=
  (bin.get_section "__symbol_stub4").orElse
    (fun _ => bin.get_section "__picsymbolstub4")

def setup_lazy_linking (bin : MachO) (mem : Mem) : Except String Mem :=
  match stubs_section bin with
  | none => .ok mem
  | some stubs =>
    match stubs.dyld_indirect_symbol_info with
    | none => .error "unwrap failed: dyld_indirect_symbol_info"
    | some info =>
      match stub_template info.entry_size with
      | none => .error "unreachable: unknown stub entry size"
      | some tmpl =>
        if stubs.size % info.entry_size == 0 then
          setup_stubs_loop stubs.addr info.entry_size tmpl
            (List.range (stubs.size / info.entry_size)) mem
        else
          .error "assertion failed: stubs.size % entry_size == 0"

/-! ## Non-lazy linking (`Dyld::do_non_lazy_linking`) -/

/-- Warnings printed to stderr by `do_non_lazy_linking`, modelled as
structured diagnostics. -/
inductive Diagnostic where
  | unhandledRelocation (name : String) (addr : Nat) (binName : String)
  | unhandledNonLazySymbol (name : String) (addr : Nat) (binName : String)
deriving DecidableEq

/-- `str::strip_prefix` (drop `p` from the front of `s` when it is there),
modelled on the character lists underlying the strings. -/
def stripPre (p s : String) : Option String :=
  if s.data.take p.data.length = p.data then
    some (String.mk (s.data.drop p.data.length))
  else none

/-- Interface to the Objective-C runtime, which lives outside the linker.
`link_class name is_metaclass` yields the guest reference written for a
class/metaclass relocation; the register operations are opaque
memory transformers invoked by `do_initial_linking`. -/
structure ObjCIface where
  link_class : String → Bool → Nat
  register_bin_selectors : MachO → Mem → Mem
  register_host_selectors : Mem → Mem
  register_bin_classes : MachO → Mem → Mem
  register_bin_categories : MachO → Mem → Mem

/-- The external-relocation loop of `do_non_lazy_linking`: class and
metaclass references are resolved through the Objective-C runtime and
written; anything else produces a diagnostic and writes nothing. -/
def relocate (objc : ObjCIface) (binName : String) :
    List (Nat × String) → Mem → Mem × List Diagnostic
  | [], mem => (mem, [])
  | (ptr_ptr, name) :: rest, mem =>
    match stripPre "_OBJC_CLASS_$_" name with
    | some cname =>
      relocate objc binName rest (mem.write ptr_ptr (objc.link_class cname false))
    | none =>
      match stripPre "_OBJC_METACLASS_$_" name with
      | some cname =>
        relocate objc binName rest (mem.write ptr_ptr (objc.link_class cname true))
      | none =>
        let (mem', ds) := relocate objc binName rest mem
        (mem', Diagnostic.unhandledRelocation name ptr_ptr binName :: ds)

/-- The `__nl_symbol_ptr` loop: each bound slot produces a diagnostic, no
pointer is written; indexing past the symbol list is fatal. -/
def nl_loop (syms : List (Option String)) (binName : String) (base entry_size : Nat) :
    List Nat → Except String (List Diagnostic)
  | [] => .ok []
  | i :: rest =>
    match syms[i]? with
    | none => .error "index out of range: indirect_undef_symbols"
    | some none => nl_loop syms binName base entry_size rest
    | some (some s) =>
      match nl_loop syms binName base entry_size rest with
      | .error e => .error e
      | .ok ds =>
        .ok (Diagnostic.unhandledNonLazySymbol s (base + i * entry_size) binName :: ds)

def do_non_lazy_linking (objc : ObjCIface) (bin : MachO) (mem : Mem) :
    Except String (Mem × List Diagnostic) :=
  let (mem1, diags1) := relocate objc bin.name bin.external_relocations mem
  match bin.get_section "__nl_symbol_ptr" with
  | none => .ok (mem1, diags1)
  | some ptrs =>
    match ptrs.dyld_indirect_symbol_info with
    | none => .error "unwrap failed: dyld_indirect_symbol_info"
    | some info =>
      if info.entry_size == 4 then
        if ptrs.size % info.entry_size == 0 then
          match nl_loop info.indirect_undef_symbols bin.name ptrs.addr
              info.entry_size (List.range (ptrs.size / info.entry_size)) with
          | .error e => .error e
          | .ok ds => .ok (mem1, diags1 ++ ds)
        else .error "assertion failed: ptrs.size % entry_size == 0"
      else .error "assertion failed: entry_size == 4"

/-! ## Lazy resolution (`Dyld::do_lazy_link`) -/

/-- The outcome of a lazy-link or SVC-dispatch operation: updated linker
state, memory, recorded cache invalidations, and the `Option<HostFunction>`
returned to the caller (`none` means "resume at the faulting address"). -/
structure LazyResult (H : Type) where
  linked_host_functions : List H
  mem : Mem
  invalidations : List (Nat × Nat)
  ret : Option H

/-- Locate, among all loaded binaries' stub sections, the one containing the
faulting address (the `find` over `flat_map` in `do_lazy_link`). -/
def find_stub_section (bins : List MachO) (pc : Nat) : Option MachOSection :=
  (bins.filterMap stubs_section).find?
    (fun s => decide (s.addr ≤ pc) && decide (pc < s.addr + s.size))

/-- Host-implemented resolution tier: allocate the next SVC code, append to
`linked_host_functions`, rewrite the stub's first instruction, assert the
return instruction is still in the second slot, invalidate the cache. -/
def host_link {H : Type} (lhf : List H) (mem : Mem) (svc_pc : Nat) (f : H) :
    Except String (LazyResult H) :=
  if lhf.length > 0xffffffff then .error "try_into failed: u32 overflow"
  else
    let svc := lhf.length + SVC_LINKED_FUNCTIONS_BASE
    let lhf' := lhf ++ [f]
    if svc_imm_ok svc then
      let mem' := mem.write svc_pc (encode_a32_svc svc)
      if mem'.read (svc_pc + 4) == encode_a32_ret then
        .ok { linked_host_functions := lhf', mem := mem',
              invalidations := [(svc_pc, 4)], ret := some f }
      else .error "assertion failed: second stub slot is the return instruction"
    else .error "assertion failed: imm & 0xff000000 == 0"

/-- Write the template words back over the stub (the restore loop of the
guest-to-guest tier). -/
def restore_words (base : Nat) : List Nat → Mem → Mem
  | [], mem => mem
  | w :: ws, mem => restore_words (base + 4) ws (mem.write base w)

/-- First export found for `symbol` among `bins[1..]` (the
`for dylib in &bins[1..]` search). -/
def first_export (bins : List MachO) (symbol : String) : Option Nat :=
  ((bins.drop 1).filterMap (fun d => lookup_export d symbol)).head?

/-- Guest-to-guest resolution tier: restore the stub template, invalidate the
cache over it, then write the resolved address into the `__la_symbol_ptr`
slot (located absolutely for the plain layout, PC-relatively for PIC). -/
def guest_link {H : Type} (bins : List MachO) (entry_size : Nat) (lhf : List H)
    (mem : Mem) (svc_pc : Nat) (symbol : String) : Except String (LazyResult H) :=
  match first_export bins symbol with
  | none => .error ("Call to unimplemented function " ++ symbol)
  | some addr =>
    match stub_template entry_size with
    | none => .error "unreachable: unknown stub entry size"
    | some tmpl =>
      let n := tmpl.length
      let mem1 := restore_words svc_pc tmpl mem
      let cell := mem1.read (svc_pc + 4 * n)
      let la := if entry_size == 12 then cell else (svc_pc + cell + 8) % 2 ^ 32
      .ok { linked_host_functions := lhf, mem := mem1.write la addr,
            invalidations := [(svc_pc, 4 * n)], ret := none }

def do_lazy_link {H : Type} (lists : List (List (String × H))) (bins : List MachO)
    (lhf : List H) (mem : Mem) (svc_pc : Nat) : Except String (LazyResult H) :=
  match find_stub_section bins svc_pc with
  | none => .error "unwrap failed: no stub section contains svc_pc"
  | some stubs =>
    match stubs.dyld_indirect_symbol_info with
    | none => .error "unwrap failed: dyld_indirect_symbol_info"
    | some info =>
      if info.entry_size == 0 then .error "attempt to calculate the remainder with a divisor of zero"
      else
        let offset := svc_pc - stubs.addr
        if offset % info.entry_size == 0 then
          let idx := offset / info.entry_size
          match info.indirect_undef_symbols[idx]? with
          | none => .error "index out of range: indirect_undef_symbols"
          | some none => .error "unwrap failed: indirect symbol name"
          | some (some symbol) =>
            match search_lists lists symbol with
            | some f => host_link lhf mem svc_pc f
            | none => guest_link bins info.entry_size lhf mem svc_pc symbol
        else .error "assertion failed: offset % entry_size == 0"

/-! ## Trap dispatch (`Dyld::get_svc_handler`) -/

def get_svc_handler {H : Type} (lists : List (List (String × H))) (bins : List MachO)
    (lhf : List H) (mem : Mem) (svc_pc svc : Nat) : Except String (LazyResult H) :=
  if svc == SVC_LAZY_LINK then do_lazy_link lists bins lhf mem svc_pc
  else if svc == SVC_RETURN_TO_HOST then
    .error "internal error: entered unreachable code"
  else
    match lhf[svc - SVC_LINKED_FUNCTIONS_BASE]? with
    | none => .error "Unexpected SVC"
    | some f =>
      .ok { linked_host_functions := lhf, mem := mem, invalidations := [],
            ret := some f }

/-! ## Initial linking (`Dyld::do_initial_linking`) -/

/-- Allocation and installation of the return-to-host trampoline, including
the single-use guard (`assert!(self.return_to_host_routine.is_none())`) and
the non-Thumb check on the allocated address. -/
def install_return_routine (rthr : Option Nat) (mem : Mem) :
    Except String (Nat × Mem) :=
  match rthr with
  | some _ => .error "assertion failed: return_to_host_routine.is_none()"
  | none =>
    let (a, mem1) := mem.alloc (4 * 2)
    let mem2 := (mem1.write a (encode_a32_svc SVC_RETURN_TO_HOST)).write (a + 4)
      encode_a32_trap
    if a % 2 == 0 then .ok (a, mem2)
    else .error "assertion failed: !ptr.is_thumb()"

/-- The per-binary loop of `do_initial_linking`: lazy stubs, then non-lazy
linking, for each binary in load order. -/
def link_all_bins (objc : ObjCIface) :
    List MachO → Mem → Except String (Mem × List Diagnostic)
  | [], mem => .ok (mem, [])
  | bin :: rest, mem =>
    match setup_lazy_linking bin mem with
    | .error e => .error e
    | .ok mem1 =>
      match do_non_lazy_linking objc bin mem1 with
      | .error e => .error e
      | .ok (mem2, ds) =>
        match link_all_bins objc rest mem2 with
        | .error e => .error e
        | .ok (mem3, ds') => .ok (mem3, ds ++ ds')

/-- `Dyld::do_initial_linking`. Returns the trampoline address (the new
`return_to_host_routine`), the final memory, and the collected diagnostics. -/
def do_initial_linking (objc : ObjCIface) (rthr : Option Nat) (bins : List MachO)
    (mem : Mem) : Except String (Nat × Mem × List Diagnostic) :=
  match install_return_routine rthr mem with
  | .error e => .error e
  | .ok (a, mem2) =>
    match bins with
    | [] => .error "index out of range: bins[0]"
    | b0 :: _ =>
      let mem3 := objc.register_host_selectors (objc.register_bin_selectors b0 mem2)
      match link_all_bins objc bins mem3 with
      | .error e => .error e
      | .ok (mem4, diags) =>
        let mem5 := objc.register_bin_categories b0 (objc.register_bin_classes b0 mem4)
        .ok (a, mem5, diags)

/-! ## CPU run-result protocol (`Cpu::run`) -/

inductive CpuState where
  | Normal
  | Svc (code : Nat)
deriving DecidableEq

/-- `Cpu::run`'s handling of the raw engine result: `-1` is normal completion
(and the tick budget is asserted to be exhausted), anything below `-1` is a
fatal protocol violation, and a non-negative result is a trap code
(truncated to `u32`). -/
def cpu_run (res : Int) (ticks : Nat) : Except String CpuState :=
  if res = -1 then
    if ticks = 0 then .ok .Normal
    else .error "assertion failed: *ticks == 0"
  else if res < -1 then .error "Unexpected CPU execution result"
  else .ok (.Svc (res.toNat % 2 ^ 32))

/-! ## Basic memory lemmas -/

theorem Mem.read_write_self (m : Mem) (a v : Nat) : (m.write a v).read a = v := by
  simp [Mem.read, Mem.write]

theorem Mem.read_write_ne (m : Mem) (a a' v : Nat) (h : a' ≠ a) :
    (m.write a v).read a' = m.read a' := by
  simp [Mem.read, Mem.write, h]

/-! ## Lemmas about the template-restore loop -/

theorem restore_words_read_out (l : List Nat) :
    ∀ (base : Nat) (m : Mem) (a : Nat),
      (∀ j, j < l.length → a ≠ base + 4 * j) →
      (restore_words base l m).read a = m.read a := by
  induction l with
  | nil => intro base m a _; rfl
  | cons w ws ih =>
    intro base m a h
    have h0 : a ≠ base := by
      have := h 0 (by simp)
      simpa using this
    have h' : ∀ j, j < ws.length → a ≠ (base + 4) + 4 * j := by
      intro j hj
      have := h (j + 1) (by simpa using Nat.succ_lt_succ hj)
      omega
    simp only [restore_words]
    rw [ih (base + 4) _ a h']
    exact Mem.read_write_ne m base a w h0

theorem restore_words_read_in (l : List Nat) :
    ∀ (base : Nat) (m : Mem) (j : Nat), j < l.length →
      (restore_words base l m).read (base + 4 * j) = l.getD j 0 := by
  induction l with
  | nil => intro base m j h; simp at h
  | cons w ws ih =>
    intro base m j h
    cases j with
    | zero =>
      simp only [restore_words, Nat.mul_zero, Nat.add_zero, List.getD_cons_zero]
      rw [restore_words_read_out ws (base + 4) _ base (by intro k _; omega)]
      exact Mem.read_write_self m base w
    | succ j =>
      simp only [restore_words, List.getD_cons_succ]
      have harith : base + 4 * (j + 1) = (base + 4) + 4 * j := by ring
      rw [harith]
      exact ih (base + 4) _ j (by simpa using Nat.lt_of_succ_lt_succ h)

/-! ## Lemmas about stub checking and patching -/

theorem stub_matches_iff (mem : Mem) (ptr : Nat) (tmpl : List Nat) :
    stub_matches mem ptr tmpl = true ↔
      ∀ j, j < tmpl.length → mem.read (ptr + 4 * j) = tmpl.getD j 0 := by
  simp [stub_matches, List.all_eq_true, List.mem_range]

theorem patch_stub_read_out (mem : Mem) (ptr es a : Nat) (h0 : a ≠ ptr)
    (h4 : a ≠ ptr + 4) (h8 : es = 16 → a ≠ ptr + 8) :
    (patch_stub mem ptr es).read a = mem.read a := by
  by_cases h : es = 16
  · have h8' := h8 h
    subst h
    simp only [patch_stub, Mem.read, Mem.write, beq_self_eq_true, if_true]
    split_ifs <;> first | rfl | omega
  · have hb : (es == 16) = false := by simpa using h
    simp only [patch_stub, Mem.read, Mem.write, hb, Bool.false_eq_true, if_false]
    split_ifs <;> first | rfl | omega

theorem patch_stub_read_zero (mem : Mem) (ptr es : Nat) :
    (patch_stub mem ptr es).read ptr = encode_a32_svc SVC_LAZY_LINK := by
  by_cases h : es = 16
  · subst h
    simp only [patch_stub, Mem.read, Mem.write, beq_self_eq_true, if_true]
    split_ifs <;> first | rfl | omega
  · have hb : (es == 16) = false := by simpa using h
    simp only [patch_stub, Mem.read, Mem.write, hb, Bool.false_eq_true, if_false]
    split_ifs <;> first | rfl | omega

theorem patch_stub_read_four (mem : Mem) (ptr es : Nat) :
    (patch_stub mem ptr es).read (ptr + 4) = encode_a32_ret := by
  by_cases h : es = 16
  · subst h
    simp only [patch_stub, Mem.read, Mem.write, beq_self_eq_true, if_true]
    split_ifs <;> first | rfl | omega
  · have hb : (es == 16) = false := by simpa using h
    simp only [patch_stub, Mem.read, Mem.write, hb, Bool.false_eq_true, if_false]
    split_ifs <;> rfl

theorem patch_stub_read_eight (mem : Mem) (ptr : Nat) :
    (patch_stub mem ptr 16).read (ptr + 8) = encode_a32_trap := by
  simp only [patch_stub, Mem.read, Mem.write, beq_self_eq_true, if_true]

/-- Offsets below the entry size identify an entry uniquely. -/
theorem entry_offset_inj (es i i' o o' : Nat) (ho : o < es) (ho' : o' < es)
    (h : i * es + o = i' * es + o') : i = i' ∧ o = o' := by
  have h' : o + es * i = o' + es * i' := by
    have hc : i * es = es * i := Nat.mul_comm _ _
    have hc' : i' * es = es * i' := Nat.mul_comm _ _
    omega
  have hmod : o = o' := by
    have := congrArg (fun x => x % es) h'
    simpa [Nat.add_mul_mod_self_left, Nat.mod_eq_of_lt ho, Nat.mod_eq_of_lt ho'] using this
  refine ⟨?_, hmod⟩
  have : es * i = es * i' := by omega
  exact Nat.eq_of_mul_eq_mul_left (by omega) this

/-! ## Lemmas about the stub-installation loop -/

theorem setup_stubs_loop_ok (es : Nat) (tmpl : List Nat) (hofs : 8 < es)
    (hlen : 4 * tmpl.length ≤ es) :
    ∀ (l : List Nat) (mem : Mem) (base : Nat), l.Nodup →
      (∀ i ∈ l, ∀ j, j < tmpl.length →
        mem.read (base + i * es + 4 * j) = tmpl.getD j 0) →
      ∃ mem', setup_stubs_loop base es tmpl l mem = .ok mem' ∧
        (∀ i ∈ l,
          mem'.read (base + i * es) = encode_a32_svc SVC_LAZY_LINK ∧
          mem'.read (base + i * es + 4) = encode_a32_ret ∧
          (es = 16 → mem'.read (base + i * es + 8) = encode_a32_trap)) ∧
        (∀ a, (∀ i ∈ l, a ≠ base + i * es ∧ a ≠ base + i * es + 4 ∧
            (es = 16 → a ≠ base + i * es + 8)) →
          mem'.read a = mem.read a) := by
  intro l
  induction l with
  | nil =>
    intro mem base _ _
    exact ⟨mem, rfl, by simp, fun a _ => rfl⟩
  | cons i rest ih =>
    intro mem base hnd hpre
    have hndr : rest.Nodup := (List.nodup_cons.mp hnd).2
    have hir : i ∉ rest := (List.nodup_cons.mp hnd).1
    have hm : stub_matches mem (base + i * es) tmpl = true := by
      rw [stub_matches_iff]
      intro j hj
      have := hpre i (by simp) j hj
      simpa [Nat.add_assoc] using this
    -- disjointness of distinct entries
    have hdisj : ∀ i' o o', i' ≠ i → o < es → o' < es →
        base + i' * es + o ≠ base + i * es + o' := by
      intro i' o o' hne ho ho' hc
      have : i' * es + o = i * es + o' := by omega
      exact hne (entry_offset_inj es i' i o o' ho ho' this).1
    have hpre' : ∀ i' ∈ rest, ∀ j, j < tmpl.length →
        (patch_stub mem (base + i * es) es).read (base + i' * es + 4 * j) =
          tmpl.getD j 0 := by
      intro i' hi' j hj
      have hji : 4 * j < es := by omega
      have hne : i' ≠ i := fun hc => hir (hc ▸ hi')
      rw [show base + i' * es + 4 * j = base + i' * es + 4 * j from rfl]
      rw [patch_stub_read_out]
      · exact hpre i' (by simp [hi']) j hj
      · have := hdisj i' (4 * j) 0 hne hji (by omega)
        simpa using this
      · exact hdisj i' (4 * j) 4 hne hji (by omega)
      · intro _; exact hdisj i' (4 * j) 8 hne hji (by omega)
    obtain ⟨mem', hrun, hreads, hframe⟩ :=
      ih (patch_stub mem (base + i * es) es) base hndr hpre'
    refine ⟨mem', ?_, ?_, ?_⟩
    · simp only [setup_stubs_loop, hm, if_true]
      exact hrun
    · intro i' hi'
      rcases List.mem_cons.mp hi' with hEq | hMem
      · have hne' : ∀ i'' ∈ rest, i'' ≠ i' := by
          intro i'' hi'' hc
          exact hir (hEq ▸ hc ▸ hi'')
        have hd : ∀ o o', o < es → o' < es → ∀ i'' ∈ rest,
            base + i' * es + o ≠ base + i'' * es + o' := by
          intro o o' ho ho' i'' hi'' hc
          exact hne' i'' hi'' (entry_offset_inj es i'' i' o' o ho' ho (by omega)).1
        have hdis0 : ∀ i'' ∈ rest, base + i' * es ≠ base + i'' * es ∧
            base + i' * es ≠ base + i'' * es + 4 ∧
            (es = 16 → base + i' * es ≠ base + i'' * es + 8) := by
          intro i'' hi''
          exact ⟨fun hc => hd 0 0 (by omega) (by omega) i'' hi'' (by omega),
                 fun hc => hd 0 4 (by omega) (by omega) i'' hi'' (by omega),
                 fun _ hc => hd 0 8 (by omega) (by omega) i'' hi'' (by omega)⟩
        have hdis4 : ∀ i'' ∈ rest, base + i' * es + 4 ≠ base + i'' * es ∧
            base + i' * es + 4 ≠ base + i'' * es + 4 ∧
            (es = 16 → base + i' * es + 4 ≠ base + i'' * es + 8) := by
          intro i'' hi''
          exact ⟨fun hc => hd 4 0 (by omega) (by omega) i'' hi'' (by omega),
                 fun hc => hd 4 4 (by omega) (by omega) i'' hi'' (by omega),
                 fun _ hc => hd 4 8 (by omega) (by omega) i'' hi'' (by omega)⟩
        have hdis8 : ∀ i'' ∈ rest, base + i' * es + 8 ≠ base + i'' * es ∧
            base + i' * es + 8 ≠ base + i'' * es + 4 ∧
            (es = 16 → base + i' * es + 8 ≠ base + i'' * es + 8) := by
          intro i'' hi''
          exact ⟨fun hc => hd 8 0 (by omega) (by omega) i'' hi'' (by omega),
                 fun hc => hd 8 4 (by omega) (by omega) i'' hi'' (by omega),
                 fun _ hc => hd 8 8 (by omega) (by omega) i'' hi'' (by omega)⟩
        refine ⟨?_, ?_, ?_⟩
        · rw [hframe _ hdis0, hEq]
          exact patch_stub_read_zero mem (base + i * es) es
        · rw [hframe _ hdis4, hEq]
          exact patch_stub_read_four mem (base + i * es) es
        · intro h16
          rw [hframe _ hdis8, hEq, h16]
          exact patch_stub_read_eight mem (base + i * 16)
      · exact hreads i' hMem
    · intro a ha
      have har := hframe a (fun i'' hi'' => ha i'' (by simp [hi'']))
      rw [har]
      have hhead := ha i (by simp)
      exact patch_stub_read_out mem (base + i * es) es a hhead.1 hhead.2.1 hhead.2.2

theorem setup_stubs_loop_matched (es : Nat) (tmpl : List Nat) (hofs : 8 < es)
    (hlen : 4 * tmpl.length ≤ es) :
    ∀ (l : List Nat) (mem : Mem) (base : Nat) (mem' : Mem), l.Nodup →
      setup_stubs_loop base es tmpl l mem = .ok mem' →
      ∀ i ∈ l, ∀ j, j < tmpl.length →
        mem.read (base + i * es + 4 * j) = tmpl.getD j 0 := by
  intro l
  induction l with
  | nil => intro mem base mem' _ _ i hi; simp at hi
  | cons i rest ih =>
    intro mem base mem' hnd hrun i' hi' j hj
    have hndr : rest.Nodup := (List.nodup_cons.mp hnd).2
    have hir : i ∉ rest := (List.nodup_cons.mp hnd).1
    simp only [setup_stubs_loop] at hrun
    by_cases hm : stub_matches mem (base + i * es) tmpl = true
    · rw [hm] at hrun
      simp only [if_true] at hrun
      rcases List.mem_cons.mp hi' with hEq | hMem
      · subst hEq
        have := (stub_matches_iff mem (base + i' * es) tmpl).mp hm j hj
        simpa [Nat.add_assoc] using this
      · have := ih (patch_stub mem (base + i * es) es) base mem' hndr hrun i' hMem j hj
        have hne : i' ≠ i := fun hc => hir (hc ▸ hMem)
        have hji : 4 * j < es := by omega
        rw [patch_stub_read_out] at this
        · exact this
        · intro hc
          exact hne (entry_offset_inj es i' i (4 * j) 0 hji (by omega) (by omega)).1
        · intro hc
          exact hne (entry_offset_inj es i' i (4 * j) 4 hji (by omega) (by omega)).1
        · intro _ hc
          exact hne (entry_offset_inj es i' i (4 * j) 8 hji (by omega) (by omega)).1
    · have hmf : stub_matches mem (base + i * es) tmpl = false :=
        Bool.eq_false_iff.mpr hm
      rw [hmf] at hrun
      simp at hrun

/-! ## Path equations for lazy resolution -/

theorem host_link_eq {H : Type} (lhf : List H) (mem : Mem) (pc : Nat) (f : H)
    (hlen : lhf.length ≤ 0xffffffff)
    (himm : svc_imm_ok (lhf.length + SVC_LINKED_FUNCTIONS_BASE) = true)
    (hret : mem.read (pc + 4) = encode_a32_ret) :
    host_link lhf mem pc f =
      .ok { linked_host_functions := lhf ++ [f],
            mem := mem.write pc (encode_a32_svc (lhf.length + SVC_LINKED_FUNCTIONS_BASE)),
            invalidations := [(pc, 4)], ret := some f } := by
  have h1 : ¬ lhf.length > 0xffffffff := by omega
  have hr : (mem.write pc
      (encode_a32_svc (lhf.length + SVC_LINKED_FUNCTIONS_BASE))).read (pc + 4) =
      encode_a32_ret := by
    rw [Mem.read_write_ne _ _ _ _ (by omega)]
    exact hret
  simp only [host_link, if_neg h1, himm, if_true, hr, beq_self_eq_true]

theorem guest_link_eq {H : Type} (bins : List MachO) (es : Nat) (lhf : List H)
    (mem : Mem) (pc : Nat) (symbol : String) (T : Nat) (tmpl : List Nat)
    (hexp : first_export bins symbol = some T)
    (htmpl : stub_template es = some tmpl) :
    guest_link bins es lhf mem pc symbol =
      .ok { linked_host_functions := lhf,
            mem := (restore_words pc tmpl mem).write
              (if es == 12 then (restore_words pc tmpl mem).read (pc + 4 * tmpl.length)
               else (pc + (restore_words pc tmpl mem).read (pc + 4 * tmpl.length) + 8)
                 % 2 ^ 32) T,
            invalidations := [(pc, 4 * tmpl.length)], ret := none } := by
  simp only [guest_link, hexp, htmpl]

theorem guest_link_err {H : Type} (bins : List MachO) (es : Nat) (lhf : List H)
    (mem : Mem) (pc : Nat) (symbol : String)
    (hexp : first_export bins symbol = none) :
    guest_link bins es lhf mem pc symbol =
      .error ("Call to unimplemented function " ++ symbol) := by
  simp only [guest_link, hexp]

theorem do_lazy_link_eq {H : Type} (lists : List (List (String × H)))
    (bins : List MachO) (lhf : List H) (mem : Mem) (pc : Nat)
    (st : MachOSection) (info : DyldIndirectSymbolInfo) (symbol : String)
    (hfind : find_stub_section bins pc = some st)
    (hinfo : st.dyld_indirect_symbol_info = some info)
    (hz : info.entry_size ≠ 0)
    (halign : (pc - st.addr) % info.entry_size = 0)
    (hsym : info.indirect_undef_symbols[(pc - st.addr) / info.entry_size]? =
      some (some symbol)) :
    do_lazy_link lists bins lhf mem pc =
      match search_lists lists symbol with
      | some f => host_link lhf mem pc f
      | none => guest_link bins info.entry_size lhf mem pc symbol := by
  have hzb : (info.entry_size == 0) = false := by simpa using hz
  have hab : ((pc - st.addr) % info.entry_size == 0) = true := by simpa using halign
  simp only [do_lazy_link, hfind, hinfo, hzb, Bool.false_eq_true, if_false, hab,
    if_true, hsym]

/-! ## Concrete fixtures used by witnesses and counterexamples -/

/-- Plain-layout stub bytes at `0x1000` (template state), trailing cell
`0x1008` holding the absolute `__la_symbol_ptr` address `0x3000`. -/
def fxMemPlain : Mem :=
  { contents := fun a =>
      if a = 0x1000 then 0xe59fc000 else if a = 0x1004 then 0xe59cf000
      else if a = 0x1008 then 0x3000 else 0,
    next_alloc := 0x8000 }

def fxSectPlain : MachOSection :=
  { addr := 0x1000, size := 12,
    dyld_indirect_symbol_info :=
      some { entry_size := 12, indirect_undef_symbols := [some "_foo"] } }

def fxApp : MachO :=
  { name := "app", sections := [("__symbol_stub4", fxSectPlain)],
    external_relocations := [], exported_symbols := [] }

def fxLists : List (List (String × Nat)) := [[("_foo", 7)]]

/-- PIC-layout stub bytes at `0x1000` (template state), trailing cell
`0x100C` holding the PC-relative offset `0xF4`
(so the `__la_symbol_ptr` slot is at `0x1000 + 0xF4 + 8 = 0x10FC`). -/
def fxMemPic : Mem :=
  { contents := fun a =>
      if a = 0x1000 then 0xe59fc004 else if a = 0x1004 then 0xe08fc00c
      else if a = 0x1008 then 0xe59cf000 else if a = 0x100C then 0xF4 else 0,
    next_alloc := 0x8000 }

def fxSectPic : MachOSection :=
  { addr := 0x1000, size := 16,
    dyld_indirect_symbol_info :=
      some { entry_size := 16, indirect_undef_symbols := [some "_bar"] } }

def fxAppPic : MachO :=
  { name := "app", sections := [("__picsymbolstub4", fxSectPic)],
    external_relocations := [], exported_symbols := [] }

def fxDylib : MachO :=
  { name := "lib", sections := [], external_relocations := [],
    exported_symbols := [("_bar", 0x2000)] }

/-- A binary with no stub section and no exports. -/
def fxEmptyApp : MachO :=
  { name := "app", sections := [], external_relocations := [],
    exported_symbols := [] }

/-- A plain-layout stub section bound to `_bar`. -/
def fxSectPlainBar : MachOSection :=
  { addr := 0x1000, size := 12,
    dyld_indirect_symbol_info :=
      some { entry_size := 12, indirect_undef_symbols := [some "_bar"] } }

/-- A dylib whose own stub refers to `_bar`, which it itself exports. -/
def fxSelfDylib : MachO :=
  { name := "self", sections := [("__symbol_stub4", fxSectPlainBar)],
    external_relocations := [], exported_symbols := [("_bar", 0x2000)] }

/-! ## Claim theorems -/

/-- Claim C7: if a lazily-triggered symbol is absent from both the host
function registry and the searched binaries' exported-symbol tables, lazy
resolution aborts with a fatal "unimplemented function" error naming that
exact symbol. -/
theorem unresolved_symbol_fatal {H : Type} (lists : List (List (String × H)))
    (bins : List MachO) (lhf : List H) (mem : Mem) (pc : Nat)
    (st : MachOSection) (info : DyldIndirectSymbolInfo) (symbol : String)
    (hfind : find_stub_section bins pc = some st)
    (hinfo : st.dyld_indirect_symbol_info = some info)
    (hz : info.entry_size ≠ 0)
    (halign : (pc - st.addr) % info.entry_size = 0)
    (hsym : info.indirect_undef_symbols[(pc - st.addr) / info.entry_size]? =
      some (some symbol))
    (hsearch : search_lists lists symbol = none)
    (hexp : first_export bins symbol = none) :
    do_lazy_link lists bins lhf mem pc =
      .error ("Call to unimplemented function " ++ symbol) := by
  rw [do_lazy_link_eq lists bins lhf mem pc st info symbol hfind hinfo hz halign hsym]
  simp only [hsearch]
  exact guest_link_err bins info.entry_size lhf mem pc symbol hexp

/-- Witness for C7: a concrete world where `_qux` is known to no host list
and exported by no other binary. -/
theorem unresolved_symbol_fatal_witness :
    do_lazy_link ([] : List (List (String × Nat)))
        [{ name := "app",
           sections := [("__symbol_stub4",
             { addr := 0x1000, size := 12,
               dyld_indirect_symbol_info :=
                 some { entry_size := 12,
                        indirect_undef_symbols := [some "_qux"] } })],
           external_relocations := [], exported_symbols := [] }]
        [] fxMemPlain 0x1000 =
      .error ("Call to unimplemented function " ++ "_qux") := by
  exact unresolved_symbol_fatal _ _ _ _ _ _ _ "_qux" rfl rfl (by decide) (by decide)
    rfl rfl rfl

/-- Claim C8: the CPU run operation accepts a Normal-completion engine result
only with a zero remaining tick count, carries trap results through with
whatever ticks remain, and aborts on any other engine result. -/
theorem cpu_run_protocol (res : Int) (ticks : Nat) :
    (cpu_run res ticks = .ok .Normal ↔ res = -1 ∧ ticks = 0) ∧
    (res = -1 → ticks ≠ 0 → (cpu_run res ticks).isOk = false) ∧
    (0 ≤ res → cpu_run res ticks = .ok (.Svc (res.toNat % 2 ^ 32))) ∧
    (res < -1 → (cpu_run res ticks).isOk = false) := by
  refine ⟨?_, ?_, ?_, ?_⟩
  · constructor
    · intro h
      by_cases h1 : res = -1
      · subst h1
        by_cases h2 : ticks = 0
        · exact ⟨rfl, h2⟩
        · simp [cpu_run, h2] at h
      · by_cases h3 : res < -1 <;> simp [cpu_run, h1, h3] at h
    · rintro ⟨h1, h2⟩
      subst h1; subst h2
      simp [cpu_run]
  · intro h1 h2
    subst h1
    simp [cpu_run, h2, Except.isOk, Except.toBool]
  · intro h
    have h1 : res ≠ -1 := by omega
    have h2 : ¬ res < -1 := by omega
    simp [cpu_run, h1, h2]
  · intro h
    have h1 : res ≠ -1 := by omega
    simp [cpu_run, h1, h, Except.isOk, Except.toBool]

/-- Witness for C8: concrete engine results exercising each hypothesis. -/
theorem cpu_run_protocol_witness :
    ((-1 : Int) = -1 ∧ (3 : Nat) ≠ 0 ∧ (cpu_run (-1) 3).isOk = false) ∧
    ((0 : Int) ≤ 7 ∧ cpu_run 7 5 = .ok (.Svc 7)) ∧
    ((-2 : Int) < -1 ∧ (cpu_run (-2) 5).isOk = false) ∧
    (cpu_run (-1) 0 = .ok .Normal) := by
  refine ⟨⟨rfl, by decide, (cpu_run_protocol (-1) 3).2.1 rfl (by decide)⟩,
          ⟨by decide, ?_⟩,
          ⟨by decide, (cpu_run_protocol (-2) 5).2.2.2 (by decide)⟩,
          (cpu_run_protocol (-1) 0).1.mpr ⟨rfl, rfl⟩⟩
  have h := (cpu_run_protocol 7 5).2.2.1 (by decide)
  simpa using h

/-- Claim C9: the return-to-host trampoline (trap-to-host then illegal/trap)
is allocated and written during initial linking, and a second invocation of
initial linking fails fatally on the single-use guard. -/
theorem return_routine_once (objc : ObjCIface) (bins : List MachO) (mem : Mem)
    (x : Nat) :
    (mem.next_alloc % 2 = 0 →
      ∃ mem2, install_return_routine none mem = .ok (mem.next_alloc, mem2) ∧
        mem2.read mem.next_alloc = encode_a32_svc SVC_RETURN_TO_HOST ∧
        mem2.read (mem.next_alloc + 4) = encode_a32_trap) ∧
    (do_initial_linking objc (some x) bins mem).isOk = false := by
  constructor
  · intro hal
    have halb : (mem.next_alloc % 2 == 0) = true := by simpa using hal
    refine ⟨((({ mem with next_alloc := mem.next_alloc + 4 * 2 } : Mem).write
        mem.next_alloc (encode_a32_svc SVC_RETURN_TO_HOST)).write
        (mem.next_alloc + 4) encode_a32_trap), ?_, ?_, ?_⟩
    · simp only [install_return_routine, Mem.alloc, halb, if_true]
    · rw [Mem.read_write_ne _ _ _ _ (by omega), Mem.read_write_self]
    · rw [Mem.read_write_self]
  · simp [do_initial_linking, install_return_routine, Except.isOk, Except.toBool]

/-- Witness for C9: a concrete even allocation cursor. -/
theorem return_routine_once_witness :
    fxMemPlain.next_alloc % 2 = 0 ∧
    (install_return_routine none fxMemPlain).toOption.map
        (fun p => (p.1, p.2.read fxMemPlain.next_alloc,
          p.2.read (fxMemPlain.next_alloc + 4))) =
      some (fxMemPlain.next_alloc, encode_a32_svc SVC_RETURN_TO_HOST,
        encode_a32_trap) ∧
    (do_initial_linking
        { link_class := fun _ _ => 0,
          register_bin_selectors := fun _ m => m,
          register_host_selectors := fun m => m,
          register_bin_classes := fun _ m => m,
          register_bin_categories := fun _ m => m }
        (some 0x8000) [fxApp] fxMemPlain).isOk = false := by
  obtain ⟨h1, h2⟩ := return_routine_once
    { link_class := fun _ _ => 0,
      register_bin_selectors := fun _ m => m,
      register_host_selectors := fun m => m,
      register_bin_classes := fun _ m => m,
      register_bin_categories := fun _ m => m }
    [fxApp] fxMemPlain 0x8000
  obtain ⟨mem2, hrun, hr0, hr4⟩ := h1 (by decide)
  refine ⟨by decide, ?_, h2⟩
  rw [hrun]
  simp [Except.toOption, hr0, hr4]

/-- Claim C6: run-time protocol violations abort rather than return a value:
an allocated-range trap code with no linked-function entry, the reserved
return-to-host code reaching the dispatcher, a faulting address in no stub
section, a misaligned stub offset, and a missing bound symbol name. -/
theorem protocol_violations_abort {H : Type} (lists : List (List (String × H)))
    (bins : List MachO) (lhf : List H) (mem : Mem) (pc svc : Nat) :
    (SVC_LINKED_FUNCTIONS_BASE ≤ svc →
      lhf[svc - SVC_LINKED_FUNCTIONS_BASE]? = none →
      (get_svc_handler lists bins lhf mem pc svc).isOk = false) ∧
    (svc = SVC_RETURN_TO_HOST →
      (get_svc_handler lists bins lhf mem pc svc).isOk = false) ∧
    (find_stub_section bins pc = none →
      (do_lazy_link lists bins lhf mem pc).isOk = false) ∧
    (∀ st info, find_stub_section bins pc = some st →
      st.dyld_indirect_symbol_info = some info → info.entry_size ≠ 0 →
      (pc - st.addr) % info.entry_size ≠ 0 →
      (do_lazy_link lists bins lhf mem pc).isOk = false) ∧
    (∀ st info, find_stub_section bins pc = some st →
      st.dyld_indirect_symbol_info = some info → info.entry_size ≠ 0 →
      (pc - st.addr) % info.entry_size = 0 →
      (info.indirect_undef_symbols[(pc - st.addr) / info.entry_size]? = none ∨
        info.indirect_undef_symbols[(pc - st.addr) / info.entry_size]? =
          some none) →
      (do_lazy_link lists bins lhf mem pc).isOk = false) := by
  refine ⟨?_, ?_, ?_, ?_, ?_⟩
  · intro hge hnone
    have h0 : (svc == SVC_LAZY_LINK) = false := by
      simp only [SVC_LAZY_LINK, SVC_LINKED_FUNCTIONS_BASE, SVC_RETURN_TO_HOST] at *
      simpa using (by omega : svc ≠ 0)
    have h1 : (svc == SVC_RETURN_TO_HOST) = false := by
      simp only [SVC_LAZY_LINK, SVC_LINKED_FUNCTIONS_BASE, SVC_RETURN_TO_HOST] at *
      simpa using (by omega : svc ≠ 1)
    simp [get_svc_handler, h0, h1, hnone, Except.isOk, Except.toBool]
  · intro h
    subst h
    simp [get_svc_handler, SVC_RETURN_TO_HOST, SVC_LAZY_LINK, Except.isOk,
      Except.toBool]
  · intro hnone
    simp [do_lazy_link, hnone, Except.isOk, Except.toBool]
  · intro st info hfind hinfo hz hmis
    have hzb : (info.entry_size == 0) = false := by simpa using hz
    have hmb : ((pc - st.addr) % info.entry_size == 0) = false := by simpa using hmis
    simp [do_lazy_link, hfind, hinfo, hzb, hmb, Except.isOk, Except.toBool]
  · intro st info hfind hinfo hz hal hmiss
    have hzb : (info.entry_size == 0) = false := by simpa using hz
    have hab : ((pc - st.addr) % info.entry_size == 0) = true := by simpa using hal
    rcases hmiss with h | h <;>
      simp [do_lazy_link, hfind, hinfo, hzb, hab, h, Except.isOk, Except.toBool]

/-- Witness for C6: concrete violations of each kind. -/
theorem protocol_violations_abort_witness :
    (SVC_LINKED_FUNCTIONS_BASE ≤ 5 ∧
      (get_svc_handler ([] : List (List (String × Nat))) [] [3, 4] fxMemPlain
        0x1000 5).isOk = false) ∧
    ((get_svc_handler ([] : List (List (String × Nat))) [] [3, 4] fxMemPlain
        0x1000 SVC_RETURN_TO_HOST).isOk = false) ∧
    ((do_lazy_link ([] : List (List (String × Nat))) [fxEmptyApp] [] fxMemPlain
        0x1000).isOk = false) ∧
    ((do_lazy_link ([] : List (List (String × Nat))) [fxApp] [] fxMemPlain
        0x1003).isOk = false) ∧
    ((do_lazy_link ([] : List (List (String × Nat)))
        [{ name := "app",
           sections := [("__symbol_stub4",
             { addr := 0x1000, size := 12,
               dyld_indirect_symbol_info :=
                 some { entry_size := 12, indirect_undef_symbols := [none] } })],
           external_relocations := [], exported_symbols := [] }]
        [] fxMemPlain 0x1000).isOk = false) := by
  have h1 := protocol_violations_abort ([] : List (List (String × Nat))) []
    ([3, 4]) fxMemPlain 0x1000 5
  have h2 := protocol_violations_abort ([] : List (List (String × Nat)))
    [fxEmptyApp] [] fxMemPlain 0x1000 0
  have h3 := protocol_violations_abort ([] : List (List (String × Nat)))
    [fxApp] [] fxMemPlain 0x1003 0
  have h4 := protocol_violations_abort ([] : List (List (String × Nat)))
    [{ name := "app",
       sections := [("__symbol_stub4",
         { addr := 0x1000, size := 12,
           dyld_indirect_symbol_info :=
             some { entry_size := 12, indirect_undef_symbols := [none] } })],
       external_relocations := [], exported_symbols := [] }]
    [] fxMemPlain 0x1000 0
  refine ⟨⟨by decide, h1.1 (by decide) (by decide)⟩,
          (protocol_violations_abort ([] : List (List (String × Nat))) []
            ([3, 4]) fxMemPlain 0x1000 SVC_RETURN_TO_HOST).2.1 rfl,
          h2.2.2.1 (by decide),
          h3.2.2.2.1 fxSectPlain _ rfl rfl (by decide) (by decide),
          h4.2.2.2.2 _ _ rfl rfl (by decide) (by decide) (Or.inr (by decide))⟩

/-- A binary whose plain-layout stub refers to `_bar` (exported by
`fxDylib`). -/
def fxAppBar : MachO :=
  { name := "app", sections := [("__symbol_stub4", fxSectPlainBar)],
    external_relocations := [], exported_symbols := [] }

/-! ## Specialised guest-link equations -/

theorem restore_plain_cell (mem : Mem) (pc : Nat) :
    (restore_words pc SYMBOL_STUB_INSTRUCTIONS mem).read (pc + 8) =
      mem.read (pc + 8) := by
  apply restore_words_read_out
  intro j hj
  simp [SYMBOL_STUB_INSTRUCTIONS] at hj
  omega

theorem restore_pic_cell (mem : Mem) (pc : Nat) :
    (restore_words pc PIC_SYMBOL_STUB_INSTRUCTIONS mem).read (pc + 12) =
      mem.read (pc + 12) := by
  apply restore_words_read_out
  intro j hj
  simp [PIC_SYMBOL_STUB_INSTRUCTIONS] at hj
  omega

theorem guest_link_eq_plain {H : Type} (bins : List MachO) (lhf : List H)
    (mem : Mem) (pc : Nat) (symbol : String) (T : Nat)
    (hexp : first_export bins symbol = some T) :
    guest_link bins 12 lhf mem pc symbol =
      .ok { linked_host_functions := lhf,
            mem := (restore_words pc SYMBOL_STUB_INSTRUCTIONS mem).write
              ((restore_words pc SYMBOL_STUB_INSTRUCTIONS mem).read (pc + 8)) T,
            invalidations := [(pc, 8)], ret := none } := by
  rw [guest_link_eq bins 12 lhf mem pc symbol T SYMBOL_STUB_INSTRUCTIONS hexp rfl]
  norm_num [SYMBOL_STUB_INSTRUCTIONS]

theorem guest_link_eq_pic {H : Type} (bins : List MachO) (lhf : List H)
    (mem : Mem) (pc : Nat) (symbol : String) (T : Nat)
    (hexp : first_export bins symbol = some T) :
    guest_link bins 16 lhf mem pc symbol =
      .ok { linked_host_functions := lhf,
            mem := (restore_words pc PIC_SYMBOL_STUB_INSTRUCTIONS mem).write
              ((pc + (restore_words pc PIC_SYMBOL_STUB_INSTRUCTIONS mem).read
                (pc + 12) + 8) % 2 ^ 32) T,
            invalidations := [(pc, 12)], ret := none } := by
  rw [guest_link_eq bins 16 lhf mem pc symbol T PIC_SYMBOL_STUB_INSTRUCTIONS hexp rfl]
  norm_num [PIC_SYMBOL_STUB_INSTRUCTIONS]

/-- Claim C2: each successful host resolution appends exactly one entry to
the linked host function table, assigns the next sequential trap code after
the reserved base (index = trap code − base), overwrites the stub's first
instruction with a trap carrying that code while the second slot still holds
the return instruction, records the cache invalidation over the rewritten
bytes, and returns the resolved host function. -/
theorem host_resolution_appends_and_patches {H : Type}
    (lists : List (List (String × H))) (bins : List MachO) (lhf : List H)
    (mem : Mem) (pc : Nat) (st : MachOSection) (info : DyldIndirectSymbolInfo)
    (symbol : String) (f : H)
    (hfind : find_stub_section bins pc = some st)
    (hinfo : st.dyld_indirect_symbol_info = some info)
    (hz : info.entry_size ≠ 0)
    (halign : (pc - st.addr) % info.entry_size = 0)
    (hsym : info.indirect_undef_symbols[(pc - st.addr) / info.entry_size]? =
      some (some symbol))
    (hsearch : search_lists lists symbol = some f)
    (hlen : lhf.length ≤ 0xffffffff)
    (himm : svc_imm_ok (lhf.length + SVC_LINKED_FUNCTIONS_BASE) = true)
    (hret : mem.read (pc + 4) = encode_a32_ret) :
    ∃ r, do_lazy_link lists bins lhf mem pc = .ok r ∧
      r.linked_host_functions = lhf ++ [f] ∧
      r.linked_host_functions.length = lhf.length + 1 ∧
      r.linked_host_functions[(lhf.length + SVC_LINKED_FUNCTIONS_BASE) -
        SVC_LINKED_FUNCTIONS_BASE]? = some f ∧
      r.mem.read pc = encode_a32_svc (lhf.length + SVC_LINKED_FUNCTIONS_BASE) ∧
      r.mem.read (pc + 4) = encode_a32_ret ∧
      r.invalidations = [(pc, 4)] ∧
      r.ret = some f := by
  rw [do_lazy_link_eq lists bins lhf mem pc st info symbol hfind hinfo hz halign
    hsym]
  simp only [hsearch]
  rw [host_link_eq lhf mem pc f hlen himm hret]
  refine ⟨_, rfl, rfl, by simp, ?_, Mem.read_write_self _ _ _, ?_, rfl, rfl⟩
  · have he : (lhf.length + SVC_LINKED_FUNCTIONS_BASE) -
        SVC_LINKED_FUNCTIONS_BASE = lhf.length := by omega
    rw [he]
    exact List.getElem?_concat_length lhf f
  · rw [Mem.read_write_ne _ _ _ _ (by omega)]
    exact hret

/-- Witness for C2: `_foo` is host-registered; the stub is in its
post-installation state. -/
theorem host_resolution_witness :
    (do_lazy_link fxLists [fxApp] ([] : List Nat)
        (patch_stub fxMemPlain 0x1000 12) 0x1000).toOption.map
        (fun r => (r.ret, r.linked_host_functions, r.invalidations,
          r.mem.read 0x1000, r.mem.read 0x1004)) =
      some (some 7, [7], [(0x1000, 4)], encode_a32_svc 2, encode_a32_ret) := by
  obtain ⟨r, hr, h1, h2, h3, h4, h5, h6, h7⟩ :=
    host_resolution_appends_and_patches fxLists [fxApp] []
      (patch_stub fxMemPlain 0x1000 12) 0x1000 fxSectPlain _ "_foo" 7
      rfl rfl (by decide) (by decide) rfl rfl (by decide) (by decide) (by decide)
  rw [hr]
  simp [Except.toOption, h1, h4, h5, h6, h7, SVC_LINKED_FUNCTIONS_BASE,
    SVC_RETURN_TO_HOST]

/-- Counterexample to C1 as stated: in the PIC layout, the linker writes the
resolved address `T = 0x2000` itself (into the slot at
`S + stored_offset + 8 = 0x10FC`); no cell is written with the offset
`T − (S + 8) = 0xFF8`. -/
theorem pic_offset_claim_counterexample :
    (do_lazy_link ([] : List (List (String × Nat))) [fxAppPic, fxDylib] []
        fxMemPic 0x1000).toOption.map
        (fun r => (r.mem.read 0x1000, r.mem.read 0x1004, r.mem.read 0x1008,
          r.mem.read 0x100C, r.mem.read 0x10FC, r.ret.isNone)) =
      some (0xe59fc004, 0xe08fc00c, 0xe59cf000, 0xF4, 0x2000, true) ∧
    (0x2000 : Nat) - (0x1000 + 8) = 0xFF8 ∧
    (0xe59fc004 : Nat) ≠ 0xFF8 ∧ (0xe08fc00c : Nat) ≠ 0xFF8 ∧
    (0xe59cf000 : Nat) ≠ 0xFF8 ∧ (0xF4 : Nat) ≠ 0xFF8 ∧
    (0x2000 : Nat) ≠ 0xFF8 := by
  refine ⟨by decide, by decide, by decide, by decide, by decide, by decide,
    by decide⟩

/-- Claim C1 (amended): for a stub resolved guest-to-guest the value written
is the resolved target address `T` itself for both layouts; the slot it is
written to is addressed by the trailing cell directly for the plain layout,
and lies at stub address + stored offset + 8 (mod 2^32) for the PIC
layout. -/
theorem guest_resolution_writes_target {H : Type}
    (lists : List (List (String × H))) (bins : List MachO) (lhf : List H)
    (mem : Mem) (pc : Nat) (st : MachOSection) (info : DyldIndirectSymbolInfo)
    (symbol : String) (T : Nat)
    (hfind : find_stub_section bins pc = some st)
    (hinfo : st.dyld_indirect_symbol_info = some info)
    (hz : info.entry_size ≠ 0)
    (halign : (pc - st.addr) % info.entry_size = 0)
    (hsym : info.indirect_undef_symbols[(pc - st.addr) / info.entry_size]? =
      some (some symbol))
    (hsearch : search_lists lists symbol = none)
    (hexp : first_export bins symbol = some T)
    (hes : info.entry_size = 12 ∨ info.entry_size = 16) :
    ∃ r, do_lazy_link lists bins lhf mem pc = .ok r ∧ r.ret = none ∧
      (info.entry_size = 12 → r.mem.read (mem.read (pc + 8)) = T) ∧
      (info.entry_size = 16 →
        r.mem.read ((pc + mem.read (pc + 12) + 8) % 2 ^ 32) = T) := by
  rw [do_lazy_link_eq lists bins lhf mem pc st info symbol hfind hinfo hz halign
    hsym]
  simp only [hsearch]
  rcases hes with h12 | h16
  · rw [h12, guest_link_eq_plain bins lhf mem pc symbol T hexp]
    refine ⟨_, rfl, rfl, ?_, ?_⟩
    · intro _
      show ((restore_words pc SYMBOL_STUB_INSTRUCTIONS mem).write
        ((restore_words pc SYMBOL_STUB_INSTRUCTIONS mem).read (pc + 8)) T).read
          (mem.read (pc + 8)) = T
      rw [restore_plain_cell mem pc]
      exact Mem.read_write_self _ _ _
    · intro h
      omega
  · rw [h16, guest_link_eq_pic bins lhf mem pc symbol T hexp]
    refine ⟨_, rfl, rfl, ?_, ?_⟩
    · intro h
      omega
    · intro _
      show ((restore_words pc PIC_SYMBOL_STUB_INSTRUCTIONS mem).write
        ((pc + (restore_words pc PIC_SYMBOL_STUB_INSTRUCTIONS mem).read
          (pc + 12) + 8) % 2 ^ 32) T).read
            ((pc + mem.read (pc + 12) + 8) % 2 ^ 32) = T
      rw [restore_pic_cell mem pc]
      exact Mem.read_write_self _ _ _

/-- Witness for C1 (amended) at the PIC fixture: the slot at `0x10FC`
receives the target `0x2000`. -/
theorem guest_resolution_writes_target_witness :
    (do_lazy_link ([] : List (List (String × Nat))) [fxAppPic, fxDylib] []
        fxMemPic 0x1000).toOption.map
        (fun r => (r.ret, r.mem.read 0x10FC)) = some (none, 0x2000) := by
  obtain ⟨r, hr, hret, _, h16⟩ :=
    guest_resolution_writes_target ([] : List (List (String × Nat)))
      [fxAppPic, fxDylib] [] fxMemPic 0x1000 fxSectPic _ "_bar" 0x2000
      rfl rfl (by decide) (by decide) rfl rfl rfl (Or.inr rfl)
  have h := h16 rfl
  have haddr : ((0x1000 + fxMemPic.read (0x1000 + 12) + 8) % 2 ^ 32 : Nat) =
      0x10FC := by decide
  rw [haddr] at h
  rw [hr]
  simp [Except.toOption, hret, h]

/-- Claim C4: after guest-to-guest resolution the stub's instruction bytes
equal the original template for its layout, and the instruction cache is
invalidated over exactly those restored bytes. -/
theorem guest_resolution_restores_template {H : Type}
    (lists : List (List (String × H))) (bins : List MachO) (lhf : List H)
    (mem : Mem) (pc : Nat) (st : MachOSection) (info : DyldIndirectSymbolInfo)
    (symbol : String) (T : Nat)
    (hfind : find_stub_section bins pc = some st)
    (hinfo : st.dyld_indirect_symbol_info = some info)
    (hz : info.entry_size ≠ 0)
    (halign : (pc - st.addr) % info.entry_size = 0)
    (hsym : info.indirect_undef_symbols[(pc - st.addr) / info.entry_size]? =
      some (some symbol))
    (hsearch : search_lists lists symbol = none)
    (hexp : first_export bins symbol = some T)
    (hes : info.entry_size = 12 ∨ info.entry_size = 16)
    (hla12 : info.entry_size = 12 → ∀ j, j < 2 →
      mem.read (pc + 8) ≠ pc + 4 * j)
    (hla16 : info.entry_size = 16 → ∀ j, j < 3 →
      (pc + mem.read (pc + 12) + 8) % 2 ^ 32 ≠ pc + 4 * j) :
    ∃ r, do_lazy_link lists bins lhf mem pc = .ok r ∧ r.ret = none ∧
      (∀ tmpl, stub_template info.entry_size = some tmpl →
        (∀ j, j < tmpl.length → r.mem.read (pc + 4 * j) = tmpl.getD j 0) ∧
        r.invalidations = [(pc, 4 * tmpl.length)]) := by
  rw [do_lazy_link_eq lists bins lhf mem pc st info symbol hfind hinfo hz halign
    hsym]
  simp only [hsearch]
  rcases hes with h12 | h16
  · rw [h12, guest_link_eq_plain bins lhf mem pc symbol T hexp]
    refine ⟨_, rfl, rfl, ?_⟩
    intro tmpl htm
    rw [h12] at hla12
    have htm' : tmpl = SYMBOL_STUB_INSTRUCTIONS := by
      simpa [stub_template] using htm.symm
    subst htm'
    refine ⟨?_, by norm_num [SYMBOL_STUB_INSTRUCTIONS]⟩
    intro j hj
    show ((restore_words pc SYMBOL_STUB_INSTRUCTIONS mem).write
      ((restore_words pc SYMBOL_STUB_INSTRUCTIONS mem).read (pc + 8)) T).read
        (pc + 4 * j) = SYMBOL_STUB_INSTRUCTIONS.getD j 0
    rw [restore_plain_cell mem pc]
    rw [Mem.read_write_ne _ _ _ _
      (Ne.symm (hla12 rfl j (by simpa [SYMBOL_STUB_INSTRUCTIONS] using hj)))]
    exact restore_words_read_in SYMBOL_STUB_INSTRUCTIONS pc mem j hj
  · rw [h16, guest_link_eq_pic bins lhf mem pc symbol T hexp]
    refine ⟨_, rfl, rfl, ?_⟩
    intro tmpl htm
    rw [h16] at hla16
    have htm' : tmpl = PIC_SYMBOL_STUB_INSTRUCTIONS := by
      simpa [stub_template] using htm.symm
    subst htm'
    refine ⟨?_, by norm_num [PIC_SYMBOL_STUB_INSTRUCTIONS]⟩
    intro j hj
    show ((restore_words pc PIC_SYMBOL_STUB_INSTRUCTIONS mem).write
      ((pc + (restore_words pc PIC_SYMBOL_STUB_INSTRUCTIONS mem).read
        (pc + 12) + 8) % 2 ^ 32) T).read
          (pc + 4 * j) = PIC_SYMBOL_STUB_INSTRUCTIONS.getD j 0
    rw [restore_pic_cell mem pc]
    rw [Mem.read_write_ne _ _ _ _
      (Ne.symm (hla16 rfl j (by simpa [PIC_SYMBOL_STUB_INSTRUCTIONS] using hj)))]
    exact restore_words_read_in PIC_SYMBOL_STUB_INSTRUCTIONS pc mem j hj

/-- Witness for C4: the plain-layout fixture round-trips back to the
template with the cache invalidated over the 8 restored bytes. -/
theorem guest_resolution_restores_template_witness :
    (do_lazy_link ([] : List (List (String × Nat))) [fxAppBar, fxDylib] []
        fxMemPlain 0x1000).toOption.map
        (fun r => (r.ret, r.mem.read 0x1000, r.mem.read 0x1004,
          r.invalidations)) =
      some (none, 0xe59fc000, 0xe59cf000, [(0x1000, 8)]) := by
  obtain ⟨r, hr, hret, hmain⟩ :=
    guest_resolution_restores_template ([] : List (List (String × Nat)))
      [fxAppBar, fxDylib] [] fxMemPlain 0x1000 fxSectPlainBar _ "_bar" 0x2000
      rfl rfl (by decide) (by decide) rfl rfl rfl (Or.inl rfl)
      (fun _ j hj => by
        have hv : fxMemPlain.read (0x1000 + 8) = 0x3000 := by decide
        omega)
      (fun h => by simp at h)
  obtain ⟨hreads, hinv⟩ := hmain SYMBOL_STUB_INSTRUCTIONS rfl
  have h0 := hreads 0 (by decide)
  have h1 := hreads 1 (by decide)
  rw [hr]
  norm_num [SYMBOL_STUB_INSTRUCTIONS] at h0 h1 hinv
  simp [Except.toOption, hret, h0, h1, hinv]

/-- Counterexample to C5 as stated: the faulting stub lies in `fxSelfDylib`,
and `_bar` is exported by no binary other than `fxSelfDylib` itself, yet the
stub is resolved guest-to-guest — the search covers `bins[1..]` (all
binaries except the first), not "every *other* loaded binary". -/
theorem guest_search_other_counterexample :
    (do_lazy_link ([] : List (List (String × Nat))) [fxEmptyApp, fxSelfDylib]
        [] fxMemPlain 0x1000).toOption.map (fun r => r.ret.isNone) =
      some true ∧
    stubs_section fxEmptyApp = none ∧
    find_stub_section [fxEmptyApp, fxSelfDylib] 0x1000 =
      stubs_section fxSelfDylib ∧
    lookup_export fxEmptyApp "_bar" = none ∧
    lookup_export fxSelfDylib "_bar" = some 0x2000 := by
  refine ⟨by decide, by decide, by decide, by decide, by decide⟩

/-- Claim C5 (amended): when the symbol is not host-resolvable, the
exported-symbol tables of all loaded binaries except the first are searched
(in load order), and the stub is resolved guest-to-guest exactly when that
search finds the symbol. -/
theorem lazy_guest_resolution_iff {H : Type}
    (lists : List (List (String × H))) (bins : List MachO) (lhf : List H)
    (mem : Mem) (pc : Nat) (st : MachOSection) (info : DyldIndirectSymbolInfo)
    (symbol : String)
    (hfind : find_stub_section bins pc = some st)
    (hinfo : st.dyld_indirect_symbol_info = some info)
    (hz : info.entry_size ≠ 0)
    (halign : (pc - st.addr) % info.entry_size = 0)
    (hsym : info.indirect_undef_symbols[(pc - st.addr) / info.entry_size]? =
      some (some symbol))
    (hsearch : search_lists lists symbol = none)
    (hes : info.entry_size = 12 ∨ info.entry_size = 16) :
    (∃ r, do_lazy_link lists bins lhf mem pc = .ok r ∧ r.ret = none) ↔
      (((bins.drop 1).filterMap (fun d => lookup_export d symbol)).head?).isSome
      := by
  have heq : (((bins.drop 1).filterMap
      (fun d => lookup_export d symbol)).head?).isSome =
      (first_export bins symbol).isSome := rfl
  rw [heq]
  rw [do_lazy_link_eq lists bins lhf mem pc st info symbol hfind hinfo hz halign
    hsym]
  simp only [hsearch]
  constructor
  · rintro ⟨r, hr, _⟩
    by_contra hns
    have hnone : first_export bins symbol = none :=
      Option.not_isSome_iff_eq_none.mp hns
    rw [guest_link_err bins info.entry_size lhf mem pc symbol hnone] at hr
    cases hr
  · intro hs
    obtain ⟨T, hT⟩ := Option.isSome_iff_exists.mp hs
    rcases hes with h12 | h16
    · rw [h12, guest_link_eq_plain bins lhf mem pc symbol T hT]
      exact ⟨_, rfl, rfl⟩
    · rw [h16, guest_link_eq_pic bins lhf mem pc symbol T hT]
      exact ⟨_, rfl, rfl⟩

/-- Witness for C5 (amended): `_bar` is found among `bins[1..]`, and the
stub resolves guest-to-guest. -/
theorem lazy_guest_resolution_iff_witness :
    ((([fxAppBar, fxDylib].drop 1).filterMap
      (fun d => lookup_export d "_bar")).head?).isSome = true ∧
    (do_lazy_link ([] : List (List (String × Nat))) [fxAppBar, fxDylib] []
        fxMemPlain 0x1000).toOption.map (fun r => r.ret.isNone) = some true := by
  refine ⟨by decide, ?_⟩
  obtain ⟨r, hr, hret⟩ :=
    (lazy_guest_resolution_iff ([] : List (List (String × Nat)))
      [fxAppBar, fxDylib] [] fxMemPlain 0x1000 fxSectPlainBar _ "_bar"
      rfl rfl (by decide) (by decide) rfl rfl (Or.inl rfl)).mpr (by decide)
  rw [hr]
  simp [Except.toOption, hret]

/-- Claim C3: lazy-link installation verifies every stub in the section
against the expected template for its layout (any deviation is fatal), and
on success each stub reads back as the lazy-link trap, the return
instruction, the PIC-only guard trap, with the trailing data cell left
unchanged. -/
theorem setup_lazy_linking_spec (bin : MachO) (mem : Mem) (st : MachOSection)
    (info : DyldIndirectSymbolInfo) (tmpl : List Nat)
    (hsec : stubs_section bin = some st)
    (hinfo : st.dyld_indirect_symbol_info = some info)
    (htmpl : stub_template info.entry_size = some tmpl)
    (hsz : st.size % info.entry_size = 0) :
    ((∃ i, i < st.size / info.entry_size ∧ ∃ j, j < tmpl.length ∧
        mem.read (st.addr + i * info.entry_size + 4 * j) ≠ tmpl.getD j 0) →
      (setup_lazy_linking bin mem).isOk = false) ∧
    (∀ mem', setup_lazy_linking bin mem = .ok mem' →
      ∀ i, i < st.size / info.entry_size →
        (∀ j, j < tmpl.length →
          mem.read (st.addr + i * info.entry_size + 4 * j) = tmpl.getD j 0) ∧
        mem'.read (st.addr + i * info.entry_size) =
          encode_a32_svc SVC_LAZY_LINK ∧
        mem'.read (st.addr + i * info.entry_size + 4) = encode_a32_ret ∧
        (info.entry_size = 16 →
          mem'.read (st.addr + i * info.entry_size + 8) = encode_a32_trap) ∧
        mem'.read (st.addr + i * info.entry_size + (info.entry_size - 4)) =
          mem.read (st.addr + i * info.entry_size + (info.entry_size - 4)))
    := by
  have hcases : (info.entry_size = 12 ∧ tmpl = SYMBOL_STUB_INSTRUCTIONS) ∨
      (info.entry_size = 16 ∧ tmpl = PIC_SYMBOL_STUB_INSTRUCTIONS) := by
    by_cases h12 : info.entry_size = 12
    · left
      refine ⟨h12, ?_⟩
      rw [h12] at htmpl
      simpa [stub_template] using htmpl.symm
    · by_cases h16 : info.entry_size = 16
      · right
        refine ⟨h16, ?_⟩
        rw [h16] at htmpl
        simpa [stub_template] using htmpl.symm
      · exfalso
        have ha : (info.entry_size == 12) = false := by simpa using h12
        have hb : (info.entry_size == 16) = false := by simpa using h16
        simp [stub_template, ha, hb] at htmpl
  have hofs : 8 < info.entry_size := by rcases hcases with ⟨h, _⟩ | ⟨h, _⟩ <;> omega
  have hlen : 4 * tmpl.length ≤ info.entry_size := by
    rcases hcases with ⟨h, ht⟩ | ⟨h, ht⟩ <;>
      simp [ht, h, SYMBOL_STUB_INSTRUCTIONS, PIC_SYMBOL_STUB_INSTRUCTIONS]
  have hszb : (st.size % info.entry_size == 0) = true := by simpa using hsz
  have hand : ∀ mem', setup_lazy_linking bin mem = .ok mem' →
      ∀ i, i < st.size / info.entry_size →
        (∀ j, j < tmpl.length →
          mem.read (st.addr + i * info.entry_size + 4 * j) = tmpl.getD j 0) ∧
        mem'.read (st.addr + i * info.entry_size) =
          encode_a32_svc SVC_LAZY_LINK ∧
        mem'.read (st.addr + i * info.entry_size + 4) = encode_a32_ret ∧
        (info.entry_size = 16 →
          mem'.read (st.addr + i * info.entry_size + 8) = encode_a32_trap) ∧
        mem'.read (st.addr + i * info.entry_size + (info.entry_size - 4)) =
          mem.read (st.addr + i * info.entry_size + (info.entry_size - 4)) := by
    intro mem' hrun
    simp only [setup_lazy_linking, hsec, hinfo, htmpl, hszb, if_true] at hrun
    intro i hi
    have hic : i ∈ List.range (st.size / info.entry_size) :=
      List.mem_range.mpr hi
    have hmat := setup_stubs_loop_matched info.entry_size tmpl hofs hlen
      (List.range (st.size / info.entry_size)) mem st.addr mem'
      (List.nodup_range _) hrun
    obtain ⟨mem'', hrun2, hreads, hframe⟩ := setup_stubs_loop_ok
      info.entry_size tmpl hofs hlen
      (List.range (st.size / info.entry_size)) mem st.addr
      (List.nodup_range _) hmat
    have hmm : mem'' = mem' := by
      rw [hrun] at hrun2
      injection hrun2 with h
      exact h.symm
    subst hmm
    refine ⟨hmat i hic, (hreads i hic).1, (hreads i hic).2.1,
      (hreads i hic).2.2, ?_⟩
    apply hframe
    intro i'' hi''
    by_cases hii : i'' = i
    · subst hii
      refine ⟨by omega, by omega, fun _ => by omega⟩
    · have hi4 : info.entry_size - 4 < info.entry_size := by omega
      refine ⟨?_, ?_, fun _ => ?_⟩
      · intro hc
        exact hii (entry_offset_inj info.entry_size i'' i 0
          (info.entry_size - 4) (by omega) hi4 (by omega)).1
      · intro hc
        exact hii (entry_offset_inj info.entry_size i'' i 4
          (info.entry_size - 4) (by omega) hi4 (by omega)).1
      · intro hc
        exact hii (entry_offset_inj info.entry_size i'' i 8
          (info.entry_size - 4) (by omega) hi4 (by omega)).1
  refine ⟨?_, hand⟩
  rintro ⟨i, hi, j, hj, hne⟩
  cases hok : setup_lazy_linking bin mem with
  | error e => rfl
  | ok mem' => exact absurd ((hand mem' hok i hi).1 j hj) hne

/-- Witness for C3: a single plain-layout stub in template state installs
successfully; the trap and return read back and the trailing cell is kept. -/
theorem setup_lazy_linking_spec_witness :
    (setup_lazy_linking fxApp fxMemPlain).toOption.map
        (fun m => (m.read 0x1000, m.read 0x1004, m.read 0x1008)) =
      some (encode_a32_svc SVC_LAZY_LINK, encode_a32_ret, 0x3000) := by
  have hspec := (setup_lazy_linking_spec fxApp fxMemPlain fxSectPlain
    { entry_size := 12, indirect_undef_symbols := [some "_foo"] }
    SYMBOL_STUB_INSTRUCTIONS rfl rfl rfl (by decide)).2
  have hok : setup_lazy_linking fxApp fxMemPlain =
      .ok (patch_stub fxMemPlain (0x1000 + 0 * 12) 12) := rfl
  obtain ⟨_, ha, hb, _, hc⟩ := hspec _ hok 0 (by decide)
  have hc' : fxMemPlain.read (fxSectPlain.addr + 0 * 12 + (12 - 4)) = 0x3000 :=
    by decide
  rw [hok]
  simp only [Except.toOption, Option.map]
  norm_num [fxSectPlain] at ha hb hc hc' ⊢
  exact ⟨ha, hb, by rw [hc]; exact hc'⟩

/-! ## Lemmas about non-lazy linking -/

theorem relocate_cons_class (objc : ObjCIface) (binName : String) (q : Nat)
    (nm : String) (rest : List (Nat × String)) (mem : Mem) (c : String)
    (hclass : stripPre "_OBJC_CLASS_$_" nm = some c) :
    relocate objc binName ((q, nm) :: rest) mem =
      relocate objc binName rest (mem.write q (objc.link_class c false)) := by
  simp only [relocate, hclass]

theorem relocate_cons_meta (objc : ObjCIface) (binName : String) (q : Nat)
    (nm : String) (rest : List (Nat × String)) (mem : Mem) (c : String)
    (hclass : stripPre "_OBJC_CLASS_$_" nm = none)
    (hmeta : stripPre "_OBJC_METACLASS_$_" nm = some c) :
    relocate objc binName ((q, nm) :: rest) mem =
      relocate objc binName rest (mem.write q (objc.link_class c true)) := by
  simp only [relocate, hclass, hmeta]

theorem relocate_cons_other (objc : ObjCIface) (binName : String) (q : Nat)
    (nm : String) (rest : List (Nat × String)) (mem : Mem)
    (hclass : stripPre "_OBJC_CLASS_$_" nm = none)
    (hmeta : stripPre "_OBJC_METACLASS_$_" nm = none) :
    relocate objc binName ((q, nm) :: rest) mem =
      ((relocate objc binName rest mem).1,
        Diagnostic.unhandledRelocation nm q binName ::
          (relocate objc binName rest mem).2) := by
  simp only [relocate, hclass, hmeta]

theorem relocate_spec (objc : ObjCIface) (binName : String) :
    ∀ (rs : List (Nat × String)) (mem : Mem), (rs.map Prod.fst).Nodup →
      (∀ p name, (p, name) ∈ rs →
        (∀ c, stripPre "_OBJC_CLASS_$_" name = some c →
          (relocate objc binName rs mem).1.read p = objc.link_class c false) ∧
        (∀ c, stripPre "_OBJC_CLASS_$_" name = none →
          stripPre "_OBJC_METACLASS_$_" name = some c →
          (relocate objc binName rs mem).1.read p = objc.link_class c true) ∧
        (stripPre "_OBJC_CLASS_$_" name = none →
          stripPre "_OBJC_METACLASS_$_" name = none →
          Diagnostic.unhandledRelocation name p binName ∈
            (relocate objc binName rs mem).2)) ∧
      (∀ a, (∀ p name, (p, name) ∈ rs →
          ((stripPre "_OBJC_CLASS_$_" name).isSome ∨
            (stripPre "_OBJC_METACLASS_$_" name).isSome) → a ≠ p) →
        (relocate objc binName rs mem).1.read a = mem.read a) := by
  intro rs
  induction rs with
  | nil =>
    intro mem _
    exact ⟨by simp, fun a _ => rfl⟩
  | cons hd rest ih =>
    obtain ⟨q, nm⟩ := hd
    intro mem hnd
    have hnd' : (q :: rest.map Prod.fst).Nodup := by simpa using hnd
    have hqr : q ∉ rest.map Prod.fst := (List.nodup_cons.mp hnd').1
    have hndr : (rest.map Prod.fst).Nodup := (List.nodup_cons.mp hnd').2
    have hqne : ∀ p name, (p, name) ∈ rest → q ≠ p := by
      intro p name hm hc
      exact hqr (hc ▸ List.mem_map_of_mem Prod.fst hm)
    cases hclass : stripPre "_OBJC_CLASS_$_" nm with
    | some c =>
      rw [relocate_cons_class objc binName q nm rest mem c hclass]
      obtain ⟨ih1, ih2⟩ := ih (mem.write q (objc.link_class c false)) hndr
      constructor
      · intro p name hm
        rcases List.mem_cons.mp hm with hEq | hMem
        · injection hEq with hp hn
          subst hp
          subst hn
          refine ⟨?_, ?_, ?_⟩
          · intro c' hc'
            rw [hclass] at hc'
            injection hc' with hcc
            subst hcc
            rw [ih2 p (fun p' n' hm' _ => hqne p' n' hm')]
            exact Mem.read_write_self _ _ _
          · intro c' hcn _
            rw [hclass] at hcn
            cases hcn
          · intro hcn _
            rw [hclass] at hcn
            cases hcn
        · exact ih1 p name hMem
      · intro a ha
        have hheadpre : (stripPre "_OBJC_CLASS_$_" nm).isSome = true ∨
            (stripPre "_OBJC_METACLASS_$_" nm).isSome = true :=
          Or.inl (by rw [hclass]; rfl)
        have haq : a ≠ q := ha q nm (List.mem_cons_self _ _) hheadpre
        rw [ih2 a (fun p' n' hm' hpre' =>
          ha p' n' (List.mem_cons_of_mem _ hm') hpre')]
        exact Mem.read_write_ne _ _ _ _ haq
    | none =>
      cases hmeta : stripPre "_OBJC_METACLASS_$_" nm with
      | some c =>
        rw [relocate_cons_meta objc binName q nm rest mem c hclass hmeta]
        obtain ⟨ih1, ih2⟩ := ih (mem.write q (objc.link_class c true)) hndr
        constructor
        · intro p name hm
          rcases List.mem_cons.mp hm with hEq | hMem
          · injection hEq with hp hn
            subst hp
            subst hn
            refine ⟨?_, ?_, ?_⟩
            · intro c' hc'
              rw [hclass] at hc'
              cases hc'
            · intro c' _ hm'
              rw [hmeta] at hm'
              injection hm' with hcc
              subst hcc
              rw [ih2 p (fun p' n' hm'' _ => hqne p' n' hm'')]
              exact Mem.read_write_self _ _ _
            · intro _ hmn
              rw [hmeta] at hmn
              cases hmn
          · exact ih1 p name hMem
        · intro a ha
          have hheadpre : (stripPre "_OBJC_CLASS_$_" nm).isSome = true ∨
              (stripPre "_OBJC_METACLASS_$_" nm).isSome = true :=
            Or.inr (by rw [hmeta]; rfl)
          have haq : a ≠ q := ha q nm (List.mem_cons_self _ _) hheadpre
          rw [ih2 a (fun p' n' hm' hpre' =>
            ha p' n' (List.mem_cons_of_mem _ hm') hpre')]
          exact Mem.read_write_ne _ _ _ _ haq
      | none =>
        rw [relocate_cons_other objc binName q nm rest mem hclass hmeta]
        obtain ⟨ih1, ih2⟩ := ih mem hndr
        constructor
        · intro p name hm
          rcases List.mem_cons.mp hm with hEq | hMem
          · injection hEq with hp hn
            subst hp
            subst hn
            refine ⟨?_, ?_, ?_⟩
            · intro c' hc'
              rw [hclass] at hc'
              cases hc'
            · intro c' _ hm'
              rw [hmeta] at hm'
              cases hm'
            · intro _ _
              exact List.mem_cons_self _ _
          · obtain ⟨a1, a2, a3⟩ := ih1 p name hMem
            exact ⟨a1, a2, fun h1 h2 => List.mem_cons_of_mem _ (a3 h1 h2)⟩
        · intro a ha
          exact ih2 a (fun p' n' hm' hpre' =>
            ha p' n' (List.mem_cons_of_mem _ hm') hpre')

theorem nl_loop_ok (syms : List (Option String)) (binName : String)
    (base es : Nat) :
    ∀ l : List Nat, (∀ i ∈ l, i < syms.length) →
      ∃ ds, nl_loop syms binName base es l = .ok ds ∧
        ∀ i ∈ l, ∀ s, syms[i]? = some (some s) →
          Diagnostic.unhandledNonLazySymbol s (base + i * es) binName ∈ ds := by
  intro l
  induction l with
  | nil => exact fun _ => ⟨[], rfl, by simp⟩
  | cons i rest ih =>
    intro hlt
    obtain ⟨ds, hds, hmem⟩ := ih (fun i' hi' => hlt i' (by simp [hi']))
    have hi : i < syms.length := hlt i (by simp)
    have hge : syms[i]? = some (syms.get ⟨i, hi⟩) :=
      List.getElem?_eq_getElem hi
    cases hsi : syms.get ⟨i, hi⟩ with
    | none =>
      have hq : syms[i]? = some none := by rw [hge, hsi]
      refine ⟨ds, ?_, ?_⟩
      · simp only [nl_loop, hq, hds]
      · intro i' hi' s hs
        rcases List.mem_cons.mp hi' with rfl | h
        · rw [hq] at hs
          cases (Option.some.injEq .. ▸ hs : (none : Option String) = some s)
        · exact hmem i' h s hs
    | some s0 =>
      have hq : syms[i]? = some (some s0) := by rw [hge, hsi]
      refine ⟨Diagnostic.unhandledNonLazySymbol s0 (base + i * es) binName ::
        ds, ?_, ?_⟩
      · simp only [nl_loop, hq, hds]
      · intro i' hi' s hs
        rcases List.mem_cons.mp hi' with rfl | h
        · rw [hq] at hs
          injection hs with hs'
          injection hs' with hs''
          subst hs''
          exact List.mem_cons_self _ _
        · exact List.mem_cons_of_mem _ (hmem i' h s hs)

/-- Claim C10: during non-lazy linking, class and metaclass relocations are
resolved through the object runtime and written at their target addresses;
every other external relocation and every bound non-lazy pointer slot is
reported via a diagnostic and skipped with no pointer written, and the
operation completes without a fatal error. -/
theorem non_lazy_linking_spec (objc : ObjCIface) (bin : MachO) (mem : Mem)
    (ptrs : MachOSection) (info : DyldIndirectSymbolInfo)
    (hdist : (bin.external_relocations.map Prod.fst).Nodup)
    (hsec : bin.get_section "__nl_symbol_ptr" = some ptrs)
    (hinfo : ptrs.dyld_indirect_symbol_info = some info)
    (hes : info.entry_size = 4)
    (hsz : ptrs.size % info.entry_size = 0)
    (hidx : ∀ i, i < ptrs.size / info.entry_size →
      i < info.indirect_undef_symbols.length) :
    ∃ mem' ds, do_non_lazy_linking objc bin mem = .ok (mem', ds) ∧
      (∀ p name, (p, name) ∈ bin.external_relocations →
        (∀ c, stripPre "_OBJC_CLASS_$_" name = some c →
          mem'.read p = objc.link_class c false) ∧
        (∀ c, stripPre "_OBJC_CLASS_$_" name = none →
          stripPre "_OBJC_METACLASS_$_" name = some c →
          mem'.read p = objc.link_class c true) ∧
        (stripPre "_OBJC_CLASS_$_" name = none →
          stripPre "_OBJC_METACLASS_$_" name = none →
          Diagnostic.unhandledRelocation name p bin.name ∈ ds)) ∧
      (∀ a, (∀ p name, (p, name) ∈ bin.external_relocations →
          ((stripPre "_OBJC_CLASS_$_" name).isSome ∨
            (stripPre "_OBJC_METACLASS_$_" name).isSome) → a ≠ p) →
        mem'.read a = mem.read a) ∧
      (∀ i, i < ptrs.size / info.entry_size → ∀ s,
        info.indirect_undef_symbols[i]? = some (some s) →
        Diagnostic.unhandledNonLazySymbol s (ptrs.addr + i * info.entry_size)
          bin.name ∈ ds) := by
  obtain ⟨hrel1, hrel2⟩ :=
    relocate_spec objc bin.name bin.external_relocations mem hdist
  obtain ⟨ds2, hds2, hmem2⟩ := nl_loop_ok info.indirect_undef_symbols bin.name
    ptrs.addr info.entry_size (List.range (ptrs.size / info.entry_size))
    (fun i hi => hidx i (List.mem_range.mp hi))
  have hesb : (info.entry_size == 4) = true := by simpa using hes
  have hszb : (ptrs.size % info.entry_size == 0) = true := by simpa using hsz
  refine ⟨(relocate objc bin.name bin.external_relocations mem).1,
    (relocate objc bin.name bin.external_relocations mem).2 ++ ds2,
    ?_, ?_, hrel2, ?_⟩
  · simp only [do_non_lazy_linking, hsec, hinfo, hesb, hszb, if_true, hds2]
  · intro p name hm
    obtain ⟨a1, a2, a3⟩ := hrel1 p name hm
    exact ⟨a1, a2, fun h1 h2 => List.mem_append_left _ (a3 h1 h2)⟩
  · intro i hi s hs
    exact List.mem_append_right _ (hmem2 i (List.mem_range.mpr hi) s hs)

/-- Object-runtime fixture: metaclass links resolve to 100, class links
to 200. -/
def fxObjC : ObjCIface :=
  { link_class := fun _ m => if m then 100 else 200,
    register_bin_selectors := fun _ m => m,
    register_host_selectors := fun m => m,
    register_bin_classes := fun _ m => m,
    register_bin_categories := fun _ m => m }

/-- A binary with one class relocation, one metaclass relocation, one
unhandled relocation, and a two-slot non-lazy pointer section whose second
slot is bound to `_nlsym`. -/
def fxRelocBin : MachO :=
  { name := "app",
    sections := [("__nl_symbol_ptr",
      { addr := 0x2000, size := 8,
        dyld_indirect_symbol_info :=
          some { entry_size := 4,
                 indirect_undef_symbols := [none, some "_nlsym"] } })],
    external_relocations := [(0x500, "_OBJC_CLASS_$_Foo"),
      (0x504, "_OBJC_METACLASS_$_Foo"), (0x508, "_other")],
    exported_symbols := [] }

/-- Witness for C10: the class pointers are written, the unhandled
relocation target is untouched, and both diagnostics are reported. -/
theorem non_lazy_linking_spec_witness :
    ((do_non_lazy_linking fxObjC fxRelocBin fxMemPlain).toOption.map
      (fun p => (p.1.read 0x500, p.1.read 0x504, p.1.read 0x508)) =
      some (200, 100, fxMemPlain.read 0x508)) ∧
    ((do_non_lazy_linking fxObjC fxRelocBin fxMemPlain).toOption.map
      (fun p =>
        (decide (Diagnostic.unhandledRelocation "_other" 0x508 "app" ∈ p.2),
         decide (Diagnostic.unhandledNonLazySymbol "_nlsym" 0x2004 "app" ∈
           p.2))) = some (true, true)) := by
  obtain ⟨mem', ds, hrun, h1, h2, h3⟩ :=
    non_lazy_linking_spec fxObjC fxRelocBin fxMemPlain
      { addr := 0x2000, size := 8,
        dyld_indirect_symbol_info :=
          some { entry_size := 4,
                 indirect_undef_symbols := [none, some "_nlsym"] } }
      { entry_size := 4, indirect_undef_symbols := [none, some "_nlsym"] }
      (by decide) rfl rfl rfl (by decide) (fun i hi => hi)
  have h500 : mem'.read 0x500 = 200 :=
    (h1 0x500 "_OBJC_CLASS_$_Foo" (by decide)).1 "Foo" (by decide)
  have h504 : mem'.read 0x504 = 100 :=
    (h1 0x504 "_OBJC_METACLASS_$_Foo" (by decide)).2.1 "Foo" (by decide)
      (by decide)
  have h508 : mem'.read 0x508 = fxMemPlain.read 0x508 := by
    apply h2
    intro p name hm hpre
    simp only [fxRelocBin, List.mem_cons, List.mem_singleton] at hm
    rcases hm with hm | hm | hm | hm
    · injection hm with hp hn
      subst hp
      omega
    · injection hm with hp hn
      subst hp
      omega
    · injection hm with hp hn
      subst hn
      exact absurd hpre (by decide)
    · simp at hm
  have hd1 : Diagnostic.unhandledRelocation "_other" 0x508 "app" ∈ ds :=
    (h1 0x508 "_other" (by decide)).2.2 (by decide) (by decide)
  have hd2 : Diagnostic.unhandledNonLazySymbol "_nlsym" 0x2004 "app" ∈ ds := by
    have := h3 1 (by decide) "_nlsym" (by decide)
    simpa using this
  rw [hrun]
  simp [Except.toOption, h500, h504, h508, hd1, hd2]

end TouchHLE
